import Mathlib

/-!
Verification of the SODA-Classify-Preprocess-Data preprocessing pipeline.

The definitions below are a shallow embedding of the Python sources
`src/bin/preprocess_cell_type_classification.py`,
`src/bin/preprocess_functional_marker_classification.py` and
`src/scripts/preprocess-training-data.py`.

Modelling conventions:
* A pandas cell is `Val := Option (String ⊕ ℚ)`: `none` is NaN/null, `.inl`
  a string cell, `.inr` a numeric cell (floats are modelled by rationals).
* A DataFrame is `Table := List (String × List Val)`: the columns in order,
  each with its name and its column of row values.
* Fallible pandas operations (KeyError, TypeError, ValueError, RuntimeError)
  are modelled with `Except String`.
* Python `str.replace` (replace all occurrences, left to right, the
  replacement text is not rescanned) is `replaceAll`; `str.replace(x, y, 1)`
  is `replaceFirst`; the regex class `\d` is modelled by the ASCII digits
  (the column names handled by the pipeline are ASCII apart from `µ`).
-/

namespace SODA

/-- ASCII decimal digit, the characters matched by the regex class `\d`
on the pipeline's column names. -/
def isDigitChar (c : Char) : Bool := '0' ≤ c && c ≤ '9'

/-- Fuel-driven worker for `replaceAll`.  One unit of fuel is spent per
character of the remaining input, which suffices because every step of
Python `str.replace` consumes at least one input character when the
pattern is nonempty. -/
def replaceAllAux (pat repl : List Char) : Nat → List Char → List Char
  | 0, s => s
  | fuel + 1, s =>
    if pat ≠ [] ∧ pat.isPrefixOf s then
      repl ++ replaceAllAux pat repl fuel (s.drop pat.length)
    else
      match s with
      | [] => []
      | c :: rest => c :: replaceAllAux pat repl fuel rest

/-- Python `s.replace(pat, repl)`: replace every non-overlapping occurrence
of `pat`, scanning left to right, never rescanning replacement text. -/
def replaceAll (pat repl s : List Char) : List Char :=
  replaceAllAux pat repl s.length s

/-- `replaceAll` on `String`. -/
def replaceAllS (s pat repl : String) : String :=
  String.mk (replaceAll pat.data repl.data s.data)

/-- Python `s.replace(pat, repl, 1)`: replace only the first occurrence. -/
def replaceFirst (pat repl : List Char) : List Char → List Char
  | [] => []
  | c :: rest =>
    if pat ≠ [] ∧ pat.isPrefixOf (c :: rest) then
      repl ++ (c :: rest).drop pat.length
    else
      c :: replaceFirst pat repl rest

/-- `replaceFirst` on `String`. -/
def replaceFirstS (s pat repl : String) : String :=
  String.mk (replaceFirst pat.data repl.data s.data)

/-- Python `pat in s`: substring containment. -/
def strContains (s pat : String) : Bool := decide (pat.data <:+: s.data)

/-- Whether an optional preceding character is a digit (`false` at the
start of the string, matching the lookbehind of `(?<!\d)`). -/
def isDigitOpt : Option Char → Bool
  | none => false
  | some c => isDigitChar c

/-- Whether the next character is a digit (`false` at the end of the
string, matching the lookahead of `(?!\d)`). -/
def headIsDigit : List Char → Bool
  | [] => false
  | c :: _ => isDigitChar c

/-- Worker for the regex substitution
`cols.str.replace("(?<!\d)\.(?!\d)", " ", regex=True)`: a period is
replaced by a space when its original neighbours are not digits; `prev`
is the character of the original string just before the current suffix. -/
def dotToSpaceAux (prev : Option Char) : List Char → List Char
  | [] => []
  | c :: rest =>
    if c = '.' ∧ isDigitOpt prev = false ∧ headIsDigit rest = false then
      ' ' :: dotToSpaceAux (some c) rest
    else
      c :: dotToSpaceAux (some c) rest

/-- The regex substitution `(?<!\d)\.(?!\d)` → `" "` of `remove_dots`. -/
def dotToSpace (s : List Char) : List Char := dotToSpaceAux none s

/-- The list of known vendor-specific literal substitutions of
`remove_dots` (`specific_matches` in the source), applied in order. -/
def specificMatches : List (String × String) :=
  [("MHC.I..", "MHC I ("),
   ("MHC.II..", "MHC II ("),
   ("MHC_I_.", "MHC_I_("),
   ("MHC_II_.", "MHC_II_("),
   ("Target.", "Target:"),
   ("Beta.Tubulin", "Beta-Tubulin"),
   ("IFN.y", "IFN-y"),
   ("HLA.DR", "HLA-DR")]

/-- The stages of `remove_dots` before the isolated-period rule: encoding
fix-ups, the vendor-specific substitutions, and the collapsing of triple
and double periods. -/
def collapseStage (s : String) : String :=
  let s := replaceAllS s "Âµm" "µm"
  let s := replaceAllS s "µm.2" "µm^2"
  let s := specificMatches.foldl (fun acc mr => replaceAllS acc mr.1 mr.2) s
  let s := replaceAllS s "..." "): "
  replaceAllS s ".." ": "

/-- Masking of the literal abbreviation `Std.Dev.` before the
isolated-period rule. -/
def maskStdDev (s : String) : String :=
  replaceAllS s "Std.Dev." "STD_DEV_PLACEHOLDER"

/-- Restoring of the literal abbreviation `Std.Dev.` after the
isolated-period rule. -/
def restoreStdDev (s : String) : String :=
  replaceAllS s "STD_DEV_PLACEHOLDER" "Std.Dev."

/-- `remove_dots` of `src/bin/preprocess_cell_type_classification.py`,
acting on one column name. -/
def removeDotsName (s : String) : String :=
  restoreStdDev (String.mk (dotToSpace (maskStdDev (collapseStage s)).data))

/-- The isolated-period rule as the specification words it, for
comparison with the source (C5): a period is converted to a space unless
it stands BETWEEN two digits. -/
def dotToSpaceSpecAux (prev : Option Char) : List Char → List Char
  | [] => []
  | c :: rest =>
    if c = '.' ∧ ¬ (isDigitOpt prev = true ∧ headIsDigit rest = true) then
      ' ' :: dotToSpaceSpecAux (some c) rest
    else
      c :: dotToSpaceSpecAux (some c) rest

/-- `remove_dots` as the specification describes its final rule, for
comparison with the source (C5). -/
def removeDotsSpecC5 (s : String) : String :=
  restoreStdDev (String.mk (dotToSpaceSpecAux none (maskStdDev (collapseStage s)).data))

/-! ### The table model -/

/-- A pandas cell: NaN (`none`), a string cell, or a numeric cell. -/
abbrev Val := Option (String ⊕ ℚ)

/-- A DataFrame: the columns in order, each with its name and its row
values. -/
abbrev Table := List (String × List Val)

deriving instance DecidableEq for Except

/-- The column names of a table, in order (`df.columns`). -/
def colNames (df : Table) : List String := df.map (·.1)

/-- The first column with the given name (`df[name]` for a unique name). -/
def getCol (df : Table) (nm : String) : Option (List Val) :=
  (df.find? (fun c => c.1 = nm)).map (·.2)

/-- Assign values to every existing column of the given name
(`df.loc[:, name] = vals` when the name exists). -/
def setColVals (df : Table) (nm : String) (vals : List Val) : Table :=
  df.map (fun c => if c.1 = nm then (nm, vals) else c)

/-- `df.loc[:, name] = vals`: overwrite the column when the name exists,
otherwise append a new column at the end. -/
def setCol (df : Table) (nm : String) (vals : List Val) : Table :=
  if nm ∈ colNames df then setColVals df nm vals else df ++ [(nm, vals)]

/-- `df.drop([name], axis=1)`: remove every column with the given name. -/
def dropCol (df : Table) (nm : String) : Table :=
  df.filter (fun c => ¬ c.1 = nm)

/-- `df[names]` for a list of labels: for each listed label, all columns
carrying it, in table order. -/
def locCols (df : Table) (names : List String) : Table :=
  names.flatMap (fun nm => df.filter (fun c => c.1 = nm))

/-- Explicit monadic map for `Except`, the semantics of building a list of
results where any step may raise. -/
def mapE (f : α → Except String β) : List α → Except String (List β)
  | [] => .ok []
  | x :: xs => do
      let y ← f x
      let ys ← mapE f xs
      return y :: ys

/-- `df.loc[:, names]`: select the listed columns, raising a KeyError when
a label is absent. -/
def getColsStrict (df : Table) (names : List String) : Except String Table := do
  let groups ← mapE (fun nm =>
    match df.filter (fun c => c.1 = nm) with
    | [] => .error "KeyError"
    | cs => .ok cs) names
  return groups.flatten

/-- `df[name]` with a KeyError when the column is absent. -/
def getColStrict (df : Table) (nm : String) : Except String (List Val) :=
  match getCol df nm with
  | none => .error "KeyError"
  | some v => .ok v

/-- The number of rows of a table, read off the first column. -/
def nRows (df : Table) : Nat :=
  match df with
  | [] => 0
  | c :: _ => c.2.length

/-- Worker for `uniqueVals`: keep the first occurrence of each value,
given the set of values already seen. -/
def uniqAux (seen : List String) : List String → List String
  | [] => []
  | x :: xs => if x ∈ seen then uniqAux seen xs else x :: uniqAux (x :: seen) xs

/-- pandas `Series.unique()` on string values: the distinct values in
order of first appearance. -/
def uniqueVals (l : List String) : List String := uniqAux [] l

/-- Worker for `duplicatedCols`. -/
def duplicatedAux (seen : List String) : List String → List String
  | [] => []
  | x :: xs =>
    if x ∈ seen then x :: duplicatedAux (x :: seen) xs
    else duplicatedAux (x :: seen) xs

/-- `df.columns[df.columns.duplicated()]`: each name at every position
after its first occurrence. -/
def duplicatedCols (names : List String) : List String := duplicatedAux [] names

/-- Reading a Python `dict` built by a sequence of insertions: the last
binding of a key wins. -/
def pyDictGet [BEq α] (d : List (α × β)) (k : α) : Option β :=
  List.lookup k d.reverse

/-! ### Duplicate column merger -/

/-- pandas `mean()` over one row of a duplicated-name group: NaN cells are
skipped, a string cell raises, the mean of no values is NaN. -/
def meanRow (vals : List Val) : Except String Val :=
  let present := vals.filterMap id
  if present.any (fun v => match v with | .inl _ => true | .inr _ => false) then
    .error "TypeError"
  else
    let nums := present.filterMap (fun v => match v with | .inr q => some q | .inl _ => none)
    if nums.isEmpty then .ok none
    else .ok (some (.inr (nums.sum / (nums.length : ℚ))))

/-- A column with no string cell (measurement and centroid columns). -/
def numericCol (vals : List Val) : Prop := ∀ v ∈ vals, ∀ s, v ≠ some (.inl s)

/-- The value `meanRow` returns when it does not raise: the arithmetic
mean of the non-missing (numeric) cells, NaN when all cells are
missing. -/
def meanOfPresent (vals : List Val) : Val :=
  let present := vals.filterMap id
  let nums := present.filterMap (fun v => match v with | .inr q => some q | .inl _ => none)
  if nums.isEmpty then none else some (.inr (nums.sum / (nums.length : ℚ)))

/-- Python `sorted(...)` on strings. -/
def pySorted (l : List String) : List String := List.insertionSort (· ≤ ·) l

/-- The group keys of `groupby(columns, axis=1)`: the distinct column
names, sorted ascending. -/
def groupNames (sel : Table) : List String :=
  pySorted (uniqueVals (colNames sel))

/-- `sel.groupby(sel.columns, axis=1).mean()` over a table of `n` rows. -/
def groupbyMean (n : Nat) (sel : Table) : Except String Table :=
  mapE (fun nm => do
    let cols := (sel.filter (fun c => c.1 = nm)).map (·.2)
    let vs ← mapE (fun i => meanRow (cols.map (fun c => c.getD i none))) (List.range n)
    return (nm, vs)) (groupNames sel)

/-- `remove_duplicate_columns` of
`src/bin/preprocess_cell_type_classification.py`. -/
def remove_duplicate_columns (df : Table) : Except String Table := do
  let dup := duplicatedCols (colNames df)
  let dfDup := locCols df dup
  let merged ← groupbyMean (nRows df) dfDup
  let kept := df.filter (fun c => c.1 ∉ dup)
  return kept ++ merged

/-! ### Marker collection and filtering -/

/-- `collect_markers`: the names of columns containing `"Cell: Mean"`,
with the suffix `": Cell: Mean"` removed. -/
def collect_markers (df : Table) : List String :=
  (colNames df).filterMap (fun col =>
    if strContains col "Cell: Mean" then some (replaceAllS col ": Cell: Mean" "")
    else none)

/-- `drop_markers` of `src/bin/preprocess_cell_type_classification.py`:
keep only the columns containing some non-excluded marker name augmented
with the trailing delimiter `": "`. -/
def drop_markers (df : Table) (markers excluded_markers : List String) : Table :=
  let kept := (markers.filter (fun s => s ∉ excluded_markers)).map (fun s => s ++ ": ")
  let measurement_columns :=
    (colNames df).filter (fun col => kept.any (fun m => strContains col m))
  locCols df measurement_columns

/-! ### Coordinate unit resolver -/

/-- `series * pixel_size`: numeric cells are scaled, NaN stays NaN, a
string cell raises a TypeError. -/
def seriesMulQ (vals : List Val) (q : ℚ) : Except String (List Val) :=
  mapE (fun v =>
    match v with
    | none => .ok none
    | some (.inr x) => .ok (some (.inr (x * q)))
    | some (.inl _) => .error "TypeError") vals

/-- The value of `series * q` on numeric-or-null input (string cells
become NaN here; `seriesMulQ` never returns this branch for them). -/
def scaleSeries (q : ℚ) (vals : List Val) : List Val :=
  vals.map (fun v =>
    match v with
    | some (.inr x) => some (.inr (x * q))
    | _ => none)

/-- `series.fillna(fill)`: fill NaN cells positionally from `fill`. -/
def fillna (vals fill : List Val) : List Val :=
  List.zipWith (fun v f => match v with | none => f | some x => some x) vals fill

/-- One axis of `convert_pixels_to_micrometre` of
`src/bin/preprocess_cell_type_classification.py`.  In the branch where
both columns exist the source executes
`expression_df = expression_df[um_col].fillna(expression_df[px_col] * pixel_size)`,
which rebinds the whole frame to a single Series, and then
`expression_df.drop([px_col], axis=1)`, which raises a ValueError because
a Series has no axis 1. -/
def convertDim (pixel_size : ℚ) (df : Table) (dim : String) : Except String Table :=
  let um_col := "Centroid " ++ dim ++ " µm"
  let px_col := "Centroid " ++ dim ++ " px"
  let cols := colNames df
  if um_col ∈ cols ∧ px_col ∈ cols then
    match getCol df um_col, getCol df px_col with
    | some umv, some pxv => do
        let scaled ← seriesMulQ pxv pixel_size
        let _collapsed := fillna umv scaled
        .error "No axis named 1 for object type Series"
    | _, _ => .error "KeyError"
  else if um_col ∉ cols ∧ px_col ∈ cols then
    match getCol df px_col with
    | some pxv => do
        let scaled ← seriesMulQ pxv pixel_size
        return dropCol (setCol df um_col scaled) px_col
    | none => .error "KeyError"
  else if um_col ∈ cols ∧ px_col ∉ cols then
    .ok df
  else
    .error "X/Y centroid measurements (in either pixels or µm) are missing!"

/-- `convert_pixels_to_micrometre` of
`src/bin/preprocess_cell_type_classification.py`: the parameter is
immediately shadowed by the fixed constant `0.3906`. -/
def convert_pixels_to_micrometre (df : Table) (pixel_size : ℚ := 0.3906) :
    Except String Table :=
  let pixel_size : ℚ := 0.3906
  do
    let df ← convertDim pixel_size df "X"
    convertDim pixel_size df "Y"

/-- One axis of `convert_pixels_to_micrometre` of
`src/scripts/preprocess-training-data.py` (the try/except variant): with
the µm column present, missing µm rows are filled in place from the px
column and the unassigned `expression_df.drop(...)` leaves the px column
in place; with the µm column absent (KeyError), the µm column is created
from the px column and the px column is dropped. -/
def convertDimScripts (pixel_size : ℚ) (df : Table) (dim : String) :
    Except String Table :=
  let um_col := "Centroid " ++ dim ++ " µm"
  let px_col := "Centroid " ++ dim ++ " px"
  match getCol df um_col with
  | some umv =>
    if umv.any (·.isNone) then
      match getCol df px_col with
      | some pxv => do
          let scaled ← seriesMulQ pxv pixel_size
          return setColVals df um_col (fillna umv scaled)
      | none => .error "KeyError"
    else .ok df
  | none =>
    match getCol df px_col with
    | some pxv => do
        let scaled ← seriesMulQ pxv pixel_size
        return dropCol (setCol df um_col scaled) px_col
    | none => .error "KeyError"

/-- `convert_pixels_to_micrometre` of
`src/scripts/preprocess-training-data.py`. -/
def convert_pixels_scripts (df : Table) (pixel_size : ℚ := 0.3906) :
    Except String Table :=
  let pixel_size : ℚ := 0.3906
  do
    let df ← convertDimScripts pixel_size df "X"
    convertDimScripts pixel_size df "Y"

/-! ### Label processing -/

/-- `create_encoder_decoder`, encoder half: the dict
`{cell_types[i]: i for i in range(len(cell_types))}` as its insertion
sequence. -/
def create_encoder (cell_types : List String) : List (String × Nat) :=
  (List.range cell_types.length).map (fun i => (cell_types.getD i "", i))

/-- `create_encoder_decoder`, decoder half: the dict
`{i: cell_types[i] for i in range(len(cell_types))}` as its insertion
sequence; this dict is what is persisted as the decoder JSON file. -/
def create_decoder (cell_types : List String) : List (Nat × String) :=
  (List.range cell_types.length).map (fun i => (i, cell_types.getD i ""))

/-- Python `"+" in x`. -/
def hasPlus (x : String) : Bool := x.data.contains '+'

/-- `binarize_and_save_fm` of
`src/bin/preprocess_functional_marker_classification.py`, acting on the
string values of the `Classification` column.  Returns the persisted
decoder dict, the encoder dict, and the rows of the binarized label file;
`labels[0]`/`labels[1]` raise an IndexError when fewer than two distinct
values are present. -/
def binarize_and_save_fm (classification : List String) :
    Except String (List (Nat × String) × List (String × Nat) × List Nat) :=
  let labels := pySorted (uniqueVals classification)
  match labels with
  | l0 :: l1 :: _ =>
      let decoder := [(1, l0), (0, l1)]
      let encoder := [(l0, 1), (l1, 0)]
      let binarized := classification.map (fun x => if hasPlus x then 1 else 0)
      .ok (decoder, encoder, binarized)
  | _ => .error "IndexError"

/-- `series.str.replace(pat, repl)`: string cells are rewritten, any
non-string cell becomes NaN. -/
def seriesStrReplace (vals : List Val) (pat repl : String) : List Val :=
  vals.map (fun v =>
    match v with
    | some (.inl s) => some (.inl (replaceAllS s pat repl))
    | _ => none)

/-- `series.replace(to_remove, change_to)`: cells exactly equal to a
listed string are replaced, every other cell is untouched. -/
def seriesReplaceVals (vals : List Val) (to_remove : List String) (change_to : String) :
    List Val :=
  vals.map (fun v =>
    match v with
    | some (.inl s) => some (.inl (if s ∈ to_remove then change_to else s))
    | other => other)

/-- All cells of a column as strings, when every cell is a non-null
string (the only case in which `sorted(series.unique())` does not raise a
TypeError). -/
def allStrings (vals : List Val) : Option (List String) :=
  vals.mapM (fun v => match v with | some (.inl s) => some s | _ => none)

/-- `preprocess_celltypecolumn` of
`src/bin/preprocess_cell_type_classification.py`.  Returns the found cell
types, the working cell types and the updated table.  A missing `Class`
column raises a KeyError; when the non-null branch is taken with a
non-string or null cell among the labels, `sorted(series.unique())`
raises a TypeError.  The `Name` column is handled inside try/except:
absent means skip. -/
def preprocess_celltypecolumn (df : Table) (cell_types_to_remove : List String)
    (change_to : String) :
    Except String (Option (List String) × Option (List String) × Table) :=
  match getCol df "Class" with
  | none => .error "KeyError"
  | some clsv =>
    if clsv.all (· = none) then
      .ok (none, none, df)
    else
      match allStrings clsv with
      | none => .error "TypeError"
      | some ss =>
        let ss := ss.map (fun s => replaceAllS s "Edited: " "")
        let df := setColVals df "Class" (ss.map (fun s => some (.inl s)))
        let df :=
          match getCol df "Name" with
          | some nv => setColVals df "Name" (seriesStrReplace nv "Edited: " "")
          | none => df
        let ss := ss.map (fun s => replaceAllS s "Immune cells: " "")
        let df := setColVals df "Class" (ss.map (fun s => some (.inl s)))
        let df :=
          match getCol df "Name" with
          | some nv => setColVals df "Name" (seriesStrReplace nv "Immune cells: " "")
          | none => df
        let found_cell_types := pySorted (uniqueVals ss)
        let ss := ss.map (fun s => if s ∈ cell_types_to_remove then change_to else s)
        let df := setColVals df "Class" (ss.map (fun s => some (.inl s)))
        let df :=
          match getCol df "Name" with
          | some nv => setColVals df "Name" (seriesReplaceVals nv cell_types_to_remove change_to)
          | none => df
        let cell_types := pySorted (uniqueVals ss)
        .ok (some found_cell_types, some cell_types, df)

/-- `save_encoded_labels`: the rows written to the cell-type label file.
The `Name` column is selected without a guard (KeyError when absent) and
passed through `labels.replace({"Name": encoder})`.  With a dict encoder,
string cells found among the encoder keys become their integer codes;
with `encoder = None`, the call means "replace the value `\x7bName\x7d`
by None", so only cells equal to the string `Name` are nulled. -/
def save_encoded_labels (df : Table) (encoder : Option (List (String × Nat))) :
    Except String (List Val) :=
  match getCol df "Name" with
  | none => .error "KeyError"
  | some nv =>
    .ok (nv.map (fun v =>
      match encoder with
      | some enc =>
        match v with
        | some (.inl s) =>
          match pyDictGet enc s with
          | some i => some (.inr (i : ℚ))
          | none => some (.inl s)
        | other => other
      | none => if v = some (.inl "Name") then none else v))

/-! ### Prefix removal, imputation, filters -/

/-- `remove_prefixes_underscores`: rewrite every column name by removing
`"Target:"` and replacing underscores with spaces. -/
def remove_prefixes_underscores (df : Table) : Table :=
  df.map (fun c => (replaceAllS (replaceAllS c.1 "Target:" "") "_" " ", c.2))

/-- Fill the NaN cells of a column positionally from a source column
(`df.loc[null_arr.values, col] = df.loc[null_arr.values, new_col]`). -/
def fillFrom (vals src : List Val) : List Val :=
  List.zipWith (fun v s => match v with | none => s | some x => some x) vals src

/-- Worker for the compartment imputers: walk the column names in order,
filling any column that has a NaN cell and whose name contains `pat` from
the column named by substituting `sub` for the first occurrence of `pat`;
a missing substitute column raises a KeyError. -/
def imputeGo (pat sub : String) : List String → Table → Except String Table
  | [], df => .ok df
  | nm :: rest, df =>
    match getCol df nm with
    | none => imputeGo pat sub rest df
    | some vals =>
      if vals.any (·.isNone) then
        if strContains nm pat then
          match getCol df (replaceFirstS nm pat sub) with
          | none => .error "KeyError"
          | some src => imputeGo pat sub rest (setColVals df nm (fillFrom vals src))
        else imputeGo pat sub rest df
      else imputeGo pat sub rest df

/-- `replace_cytoplasm_with_membrane`. -/
def replace_cytoplasm_with_membrane (df : Table) : Except String Table :=
  imputeGo "Cytoplasm" "Membrane" (colNames df) df

/-- `use_cell_measurement`. -/
def use_cell_measurement (df : Table) : Except String Table :=
  imputeGo "Nucleus" "Cell" (colNames df) df

/-- `remove_unwanted_compartments`: drop every column whose name contains
any unwanted compartment token as a raw substring. -/
def remove_unwanted_compartments (df : Table) (unwanted_compartments : List String) :
    Table :=
  df.filter (fun c => ¬ unwanted_compartments.any (fun t => strContains c.1 t))

/-- `remove_statistics`: drop every column whose name contains any
unwanted statistic token as a raw substring. -/
def remove_statistics (df : Table) (unwanted_stats : List String) : Table :=
  df.filter (fun c => ¬ unwanted_stats.any (fun t => strContains c.1 t))

/-- `remove_dots` applied to a whole table: rewrite the column names. -/
def remove_dots (df : Table) : Table :=
  df.map (fun c => (removeDotsName c.1, c.2))

/-! ### The pipeline driver -/

/-- The artifacts produced by one run of `preprocess_training_data` of
`src/bin/preprocess_cell_type_classification.py` (file writes are
modelled by the written content; report strings are not modelled). -/
structure Artifacts where
  foundCellTypes : Option (List String)
  cellTypes : Option (List String)
  decoderFile : Option (List (Nat × String))
  labelFileRows : List Val
  imagesFile : Table
  finalTable : Table
deriving DecidableEq

/-- `preprocess_training_data` of
`src/bin/preprocess_cell_type_classification.py`: the pipeline from the
loaded table to the written artifacts (report-only steps omitted; the
`value_counts` report line is kept as the KeyError check it performs on
the `Class` column). -/
def preprocess_training_data (df0 : Table) (cell_types_to_remove : List String)
    (change_to : String) (additional_meta_data_to_keep : List String)
    (unwanted_markers unwanted_compartments unwanted_statistics : List String) :
    Except String Artifacts := do
  let df := remove_dots df0
  let (found_cell_types, cell_types, df) ←
    preprocess_celltypecolumn df cell_types_to_remove change_to
  let decoderFile :=
    match cell_types with
    | some [] => none
    | some ct => some (create_decoder ct)
    | none => none
  let encoder :=
    match cell_types with
    | some [] => none
    | some ct => some (create_encoder ct)
    | none => none
  let labelRows ← save_encoded_labels df encoder
  let df ← convert_pixels_to_micrometre df
  let images ← getColsStrict df
    (["Image", "Centroid X µm", "Centroid Y µm"] ++ additional_meta_data_to_keep)
  let _classCounts ← getColStrict df "Class"
  let df := remove_prefixes_underscores df
  let df ← remove_duplicate_columns df
  let markers := collect_markers df
  let df := drop_markers df markers unwanted_markers
  let df ← replace_cytoplasm_with_membrane df
  let df ← use_cell_measurement df
  let df := remove_unwanted_compartments df unwanted_compartments
  let df := remove_statistics df unwanted_statistics
  return { foundCellTypes := found_cell_types, cellTypes := cell_types,
           decoderFile := decoderFile, labelFileRows := labelRows,
           imagesFile := images, finalTable := df }

/-! ### General lemmas -/

theorem mapE_ok_of_forall {α β : Type} {f : α → Except String β} {g : α → β} :
    ∀ {l : List α}, (∀ x ∈ l, f x = .ok (g x)) → mapE f l = .ok (l.map g) := by
  intro l
  induction l with
  | nil => intro _; rfl
  | cons x xs ih =>
    intro h
    have hx := h x (List.mem_cons_self x xs)
    have hxs := ih (fun y hy => h y (List.mem_cons_of_mem x hy))
    simp only [mapE, hx, hxs, List.map_cons]
    rfl

theorem mapE_ok_exists {α β : Type} {f : α → Except String β} :
    ∀ {l : List α}, (∀ x ∈ l, ∃ y, f x = .ok y) → ∃ ys, mapE f l = .ok ys := by
  intro l
  induction l with
  | nil => intro _; exact ⟨[], rfl⟩
  | cons x xs ih =>
    intro h
    obtain ⟨y, hy⟩ := h x (List.mem_cons_self x xs)
    obtain ⟨ys, hys⟩ := ih (fun z hz => h z (List.mem_cons_of_mem x hz))
    refine ⟨y :: ys, ?_⟩
    simp only [mapE, hy, hys]
    rfl

theorem lookup_eq_some_of_mem_unique {α β : Type} [DecidableEq α]
    {l : List (α × β)} {k : α} {v : β} (hmem : (k, v) ∈ l)
    (huniq : ∀ p ∈ l, p.1 = k → p.2 = v) :
    List.lookup k l = some v := by
  induction l with
  | nil => cases hmem
  | cons p l ih =>
    rcases p with ⟨k1, v1⟩
    by_cases hk : k = k1
    · subst hk
      have : v1 = v := huniq (k, v1) (List.mem_cons_self _ _) rfl
      subst this
      simp [List.lookup]
    · have hmem1 : (k, v) ∈ l := by
        rcases List.mem_cons.mp hmem with h | h
        · cases h; exact absurd rfl hk
        · exact h
      have hbeq : (k == k1) = false := beq_eq_false_iff_ne.mpr hk
      have := ih hmem1 (fun p hp => huniq p (List.mem_cons_of_mem _ hp))
      simpa [List.lookup, hbeq] using this

theorem mem_of_lookup_eq_some {α β : Type} [DecidableEq α]
    {l : List (α × β)} {k : α} {v : β} (h : List.lookup k l = some v) :
    (k, v) ∈ l := by
  induction l with
  | nil => simp [List.lookup] at h
  | cons p l ih =>
    rcases p with ⟨k1, v1⟩
    by_cases hk : k = k1
    · subst hk
      simp [List.lookup] at h
      subst h
      exact List.mem_cons_self _ _
    · have hbeq : (k == k1) = false := beq_eq_false_iff_ne.mpr hk
      simp only [List.lookup, hbeq] at h
      exact List.mem_cons_of_mem _ (ih h)

theorem lookup_eq_none_of_forall {α β : Type} [DecidableEq α]
    {l : List (α × β)} {k : α} (h : ∀ p ∈ l, p.1 ≠ k) :
    List.lookup k l = none := by
  induction l with
  | nil => rfl
  | cons p l ih =>
    rcases p with ⟨k1, v1⟩
    have hk : k ≠ k1 := fun he => h (k1, v1) (List.mem_cons_self _ _) he.symm
    have hbeq : (k == k1) = false := beq_eq_false_iff_ne.mpr hk
    have := ih (fun p hp => h p (List.mem_cons_of_mem _ hp))
    simpa [List.lookup, hbeq] using this

theorem mem_uniqAux {x : String} :
    ∀ {l seen : List String}, x ∈ uniqAux seen l ↔ x ∈ l ∧ x ∉ seen := by
  intro l
  induction l with
  | nil => intro seen; simp [uniqAux]
  | cons y ys ih =>
    intro seen
    by_cases hy : y ∈ seen
    · simp only [uniqAux, if_pos hy]
      rw [ih]
      constructor
      · rintro ⟨hx, hns⟩
        exact ⟨List.mem_cons_of_mem _ hx, hns⟩
      · rintro ⟨hx, hns⟩
        rcases List.mem_cons.mp hx with h | h
        · subst h; exact absurd hy hns
        · exact ⟨h, hns⟩
    · simp only [uniqAux, if_neg hy]
      constructor
      · intro hx
        rcases List.mem_cons.mp hx with h | h
        · subst h; exact ⟨List.mem_cons_self _ _, hy⟩
        · rw [ih] at h
          refine ⟨List.mem_cons_of_mem _ h.1, ?_⟩
          intro hs
          exact h.2 (List.mem_cons_of_mem _ hs)
      · rintro ⟨hx, hns⟩
        rcases List.mem_cons.mp hx with h | h
        · subst h; exact List.mem_cons_self _ _
        · by_cases hxy : x = y
          · subst hxy; exact List.mem_cons_self _ _
          · refine List.mem_cons_of_mem _ ?_
            rw [ih]
            refine ⟨h, ?_⟩
            intro hs
            rcases List.mem_cons.mp hs with h2 | h2
            · exact hxy h2
            · exact hns h2

theorem mem_uniqueVals {x : String} {l : List String} :
    x ∈ uniqueVals l ↔ x ∈ l := by
  unfold uniqueVals
  rw [mem_uniqAux]
  simp

theorem nodup_uniqAux :
    ∀ {l seen : List String}, (uniqAux seen l).Nodup := by
  intro l
  induction l with
  | nil => intro seen; simp [uniqAux]
  | cons y ys ih =>
    intro seen
    by_cases hy : y ∈ seen
    · simpa [uniqAux, if_pos hy] using ih
    · simp only [uniqAux, if_neg hy]
      refine List.nodup_cons.mpr ⟨?_, ih⟩
      intro hmem
      exact (mem_uniqAux.mp hmem).2 (List.mem_cons_self _ _)

theorem nodup_uniqueVals {l : List String} : (uniqueVals l).Nodup :=
  nodup_uniqAux

theorem sorted_pySorted (l : List String) : List.Sorted (· ≤ ·) (pySorted l) :=
  List.sorted_insertionSort _ l

theorem perm_pySorted (l : List String) : List.Perm (pySorted l) l :=
  List.perm_insertionSort _ l

theorem mem_pySorted {x : String} {l : List String} : x ∈ pySorted l ↔ x ∈ l :=
  (perm_pySorted l).mem_iff

theorem nodup_pySorted {l : List String} (h : l.Nodup) : (pySorted l).Nodup :=
  (perm_pySorted l).nodup_iff.mpr h

/-! ### Table access lemmas -/

theorem seriesMulQ_ok {vals : List Val} {q : ℚ} (h : numericCol vals) :
    seriesMulQ vals q = .ok (scaleSeries q vals) := by
  unfold seriesMulQ scaleSeries
  apply mapE_ok_of_forall
  intro v hv
  match v with
  | none => rfl
  | some (.inr x) => rfl
  | some (.inl s) => exact absurd rfl (h (some (.inl s)) hv s)

theorem getCol_isSome_of_mem {df : Table} {nm : String}
    (h : nm ∈ colNames df) : ∃ v, getCol df nm = some v := by
  unfold getCol
  rcases List.mem_map.mp h with ⟨c, hc, rfl⟩
  have : (df.find? (fun c2 => c2.1 = c.1)).isSome :=
    List.find?_isSome.mpr ⟨c, hc, by simp⟩
  rcases Option.isSome_iff_exists.mp this with ⟨c2, hc2⟩
  exact ⟨c2.2, by rw [hc2]; rfl⟩

theorem getCol_append_of_not_mem_left {df l : Table} {nm : String}
    (h : nm ∉ colNames df) : getCol (df ++ l) nm = getCol l nm := by
  unfold getCol
  rw [List.find?_append]
  have hnone : df.find? (fun c => c.1 = nm) = none := by
    rw [List.find?_eq_none]
    intro c hc hp
    exact h (List.mem_map.mpr ⟨c, hc, by simpa using hp⟩)
  rw [hnone, Option.none_or]

theorem getCol_append_left {df l : Table} {nm : String}
    (h : nm ∈ colNames df) : getCol (df ++ l) nm = getCol df nm := by
  unfold getCol
  rw [List.find?_append]
  rcases getCol_isSome_of_mem h with ⟨v, hv⟩
  unfold getCol at hv
  rcases Option.map_eq_some'.mp hv with ⟨c, hc, -⟩
  rw [hc]
  rfl

theorem getCol_dropCol_ne {df : Table} {nm nm2 : String} (h : nm2 ≠ nm) :
    getCol (dropCol df nm) nm2 = getCol df nm2 := by
  unfold getCol dropCol
  induction df with
  | nil => rfl
  | cons c rest ih =>
    by_cases hc : c.1 = nm
    · have hneq : ¬ (c.1 = nm2) := fun he => h (he ▸ hc)
      rw [List.filter_cons_of_neg (by simpa using hc),
        List.find?_cons_of_neg _ (by simpa using hneq)]
      exact ih
    · rw [List.filter_cons_of_pos (by simpa using hc)]
      by_cases hc2 : c.1 = nm2
      · rw [List.find?_cons_of_pos _ (by simpa using hc2),
          List.find?_cons_of_pos _ (by simpa using hc2)]
      · rw [List.find?_cons_of_neg _ (by simpa using hc2),
          List.find?_cons_of_neg _ (by simpa using hc2)]
        exact ih

theorem getCol_singleton {nm : String} {v : List Val} :
    getCol [(nm, v)] nm = some v := by
  unfold getCol
  rw [List.find?_cons_of_pos _ (by simp)]
  rfl

theorem mem_colNames_dropCol {df : Table} {nm nm2 : String} :
    nm2 ∈ colNames (dropCol df nm) ↔ nm2 ∈ colNames df ∧ nm2 ≠ nm := by
  unfold colNames dropCol
  constructor
  · intro h
    rcases List.mem_map.mp h with ⟨c, hc, rfl⟩
    rcases List.mem_filter.mp hc with ⟨hcdf, hp⟩
    exact ⟨List.mem_map.mpr ⟨c, hcdf, rfl⟩, by simpa using hp⟩
  · rintro ⟨h, hne⟩
    rcases List.mem_map.mp h with ⟨c, hc, rfl⟩
    exact List.mem_map.mpr ⟨c, List.mem_filter.mpr ⟨hc, by simpa using hne⟩, rfl⟩


/-! ### C9: the pixel_size parameter has no influence -/

/-- C9: `pixel_size` is a fixed constant of `0.3906` µm/pixel: the result
of the coordinate resolver is the same for every two values of the
`pixel_size` parameter, on every input table — the parameter is shadowed
by the constant before any use. -/
theorem pixel_size_has_no_influence (df : Table) (a b : ℚ) :
    convert_pixels_to_micrometre df a = convert_pixels_to_micrometre df b := rfl

/-! ### C1: the both-columns branch of the coordinate resolver -/

unseal Rat.mul Rat.inv Rat.ofScientific Rat.add in
/-- C1 (failing input): on a table that has both `Centroid X µm` (with a
missing value) and `Centroid X px`, the resolver of
`src/bin/preprocess_cell_type_classification.py` does not fill the missing
µm values and keep the remaining columns: it rebinds the frame to the
single filled µm Series and then raises
`ValueError: No axis named 1 for object type Series`, so the branch loses
every other column and aborts.  The sibling implementation in
`src/scripts/preprocess-training-data.py`, run on the same table, performs
exactly what the claim describes: it fills only the missing µm value from
px×0.3906, retains the px column, and leaves every other column
unchanged. -/
theorem convert_both_columns_branch_raises :
    convert_pixels_to_micrometre
      [("Centroid X µm", [some (.inr 1), none]),
       ("Centroid X px", [some (.inr 10), some (.inr 20)]),
       ("Centroid Y µm", [some (.inr 2), some (.inr 3)]),
       ("Other: Cell: Mean", [some (.inr 5), some (.inr 6)])]
      = .error "No axis named 1 for object type Series"
    ∧ convert_pixels_scripts
      [("Centroid X µm", [some (.inr 1), none]),
       ("Centroid X px", [some (.inr 10), some (.inr 20)]),
       ("Centroid Y µm", [some (.inr 2), some (.inr 3)]),
       ("Other: Cell: Mean", [some (.inr 5), some (.inr 6)])]
      = .ok
      [("Centroid X µm", [some (.inr 1), some (.inr (1953/250 : ℚ))]),
       ("Centroid X px", [some (.inr 10), some (.inr 20)]),
       ("Centroid Y µm", [some (.inr 2), some (.inr 3)]),
       ("Other: Cell: Mean", [some (.inr 5), some (.inr 6)])] := by
  constructor
  · rfl
  · decide

/-! ### C7 and C10: marker filtering -/

theorem mem_locCols {df : Table} {ls : List String} {c : String × List Val} :
    c ∈ locCols df ls ↔ c ∈ df ∧ c.1 ∈ ls := by
  unfold locCols
  rw [List.mem_flatMap]
  constructor
  · rintro ⟨nm, hnm, hc⟩
    rcases List.mem_filter.mp hc with ⟨hcdf, hp⟩
    have : c.1 = nm := by simpa using hp
    exact ⟨hcdf, this ▸ hnm⟩
  · rintro ⟨hcdf, hnm⟩
    exact ⟨c.1, hnm, List.mem_filter.mpr ⟨hcdf, by simp⟩⟩

theorem mem_drop_markers {df : Table} {markers excluded : List String}
    {c : String × List Val} :
    c ∈ drop_markers df markers excluded ↔
      c ∈ df ∧ ∃ m ∈ markers, m ∉ excluded ∧ strContains c.1 (m ++ ": ") = true := by
  unfold drop_markers
  rw [mem_locCols, List.mem_filter]
  constructor
  · rintro ⟨hcdf, -, hany⟩
    refine ⟨hcdf, ?_⟩
    rcases List.any_eq_true.mp hany with ⟨t, ht, hcont⟩
    rcases List.mem_map.mp ht with ⟨m, hm, rfl⟩
    rcases List.mem_filter.mp hm with ⟨hmm, hnex⟩
    exact ⟨m, hmm, by simpa using hnex, hcont⟩
  · rintro ⟨hcdf, m, hmm, hnex, hcont⟩
    refine ⟨hcdf, List.mem_map.mpr ⟨c, hcdf, rfl⟩, ?_⟩
    exact List.any_eq_true.mpr
      ⟨m ++ ": ", List.mem_map.mpr ⟨m, List.mem_filter.mpr ⟨hmm, by simpa using hnex⟩, rfl⟩, hcont⟩

theorem colon_mem_of_strContains_token {col m : String}
    (h : strContains col (m ++ ": ") = true) : ':' ∈ col.data := by
  unfold strContains at h
  have hinf : (m ++ ": ").data <:+: col.data := of_decide_eq_true h
  have hmem : ':' ∈ (m ++ ": ").data := by
    rw [String.data_append]
    exact List.mem_append.mpr (Or.inr (by decide))
  exact hinf.sublist.subset hmem

/-- C10: every column of the output of `drop_markers` contains some kept
marker name followed by `": "` as a substring; consequently the
identity/metadata columns `Image`, `Class`, `Name` and the centroid
columns — none of which contains a colon — are absent from the feature
table from this stage on. -/
theorem drop_markers_only_measurement_columns (df : Table)
    (markers excluded : List String) (c : String × List Val)
    (hc : c ∈ drop_markers df markers excluded) :
    (∃ m ∈ markers, m ∉ excluded ∧ strContains c.1 (m ++ ": ") = true) ∧
    c.1 ∉ ["Image", "Class", "Name", "Centroid X µm", "Centroid Y µm"] := by
  rcases mem_drop_markers.mp hc with ⟨-, m, hmm, hnex, hcont⟩
  refine ⟨⟨m, hmm, hnex, hcont⟩, ?_⟩
  have hcolon : ':' ∈ c.1.data := colon_mem_of_strContains_token hcont
  intro hmem
  simp only [List.mem_cons, List.not_mem_nil, or_false] at hmem
  have : ¬ ':' ∈ c.1.data := by
    rcases hmem with h | h | h | h | h
    · rw [h]; decide
    · rw [h]; decide
    · rw [h]; decide
    · rw [h]; decide
    · rw [h]; decide
  exact this hcolon

/-- C10 witness: the general theorem applied to a concrete table. -/
theorem drop_markers_only_measurement_columns_witness :
    (∃ m ∈ ["CD45"], m ∉ ["CD4"] ∧
      strContains "CD45: Cell: Mean" (m ++ ": ") = true) ∧
    "CD45: Cell: Mean" ∉ ["Image", "Class", "Name", "Centroid X µm", "Centroid Y µm"] :=
  drop_markers_only_measurement_columns
    [("CD45: Cell: Mean", [some (.inr 1)]), ("Image", [some (.inl "i")])]
    ["CD45"] ["CD4"] ("CD45: Cell: Mean", [some (.inr 1)])
    (by
      rw [show drop_markers
            [("CD45: Cell: Mean", [some (.inr 1)]), ("Image", [some (.inl "i")])]
            ["CD45"] ["CD4"]
          = [("CD45: Cell: Mean", [some (.inr 1)])] by decide]
      exact List.mem_cons_self _ _)

/-- C7: marker exclusion matches each column against the kept marker
names augmented with the trailing delimiter `": "`: a column survives
exactly when it contains some non-excluded marker followed by `": "`; in
particular, with `CD45` among the collected markers, excluding `CD4` never
removes the column `CD45: Cell: Mean`, as the concrete run shows. -/
theorem drop_markers_augmented_token (df : Table) (markers excluded : List String)
    (col : String) :
    (col ∈ colNames (drop_markers df markers excluded) ↔
      col ∈ colNames df ∧ ∃ m ∈ markers, m ∉ excluded ∧ strContains col (m ++ ": ") = true) ∧
    ("CD45" ∈ markers → "CD45" ∉ excluded →
      "CD45: Cell: Mean" ∈ colNames df →
      "CD45: Cell: Mean" ∈ colNames (drop_markers df markers excluded)) ∧
    (drop_markers [("CD45: Cell: Mean", [some (.inr 1)]), ("Image", [some (.inl "i")])]
      (collect_markers [("CD45: Cell: Mean", [some (.inr 1)]), ("Image", [some (.inl "i")])])
      ["CD4"]
      = [("CD45: Cell: Mean", [some (.inr 1)])]) := by
  have hmain : ∀ (cl : String), cl ∈ colNames (drop_markers df markers excluded) ↔
      cl ∈ colNames df ∧ ∃ m ∈ markers, m ∉ excluded ∧ strContains cl (m ++ ": ") = true := by
    intro cl
    unfold colNames
    rw [List.mem_map]
    constructor
    · rintro ⟨c, hc, rfl⟩
      rcases mem_drop_markers.mp hc with ⟨hcdf, hex⟩
      exact ⟨List.mem_map.mpr ⟨c, hcdf, rfl⟩, hex⟩
    · rintro ⟨hcl, hex⟩
      rcases List.mem_map.mp hcl with ⟨c, hc, rfl⟩
      exact ⟨c, mem_drop_markers.mpr ⟨hc, hex⟩, rfl⟩
  refine ⟨hmain col, ?_, by decide⟩
  intro h45 hnex hmem
  exact (hmain "CD45: Cell: Mean").mpr
    ⟨hmem, "CD45", h45, hnex, by decide⟩

/-! ### C3: lemmas on the duplicate column merger -/

theorem count_duplicatedAux (x : String) :
    ∀ (l seen : List String),
      (duplicatedAux seen l).count x =
        if x ∈ seen then l.count x else l.count x - 1 := by
  intro l
  induction l with
  | nil => intro seen; by_cases h : x ∈ seen <;> simp [duplicatedAux, h]
  | cons y ys ih =>
    intro seen
    by_cases hy : y ∈ seen
    · rw [duplicatedAux, if_pos hy, List.count_cons, ih (y :: seen), List.count_cons]
      by_cases hxy : x = y
      · subst hxy
        simp [hy]
      · have hmem : x ∈ y :: seen ↔ x ∈ seen := by
          rw [List.mem_cons]
          constructor
          · rintro (h | h)
            · exact absurd h hxy
            · exact h
          · exact Or.inr
        rw [beq_eq_false_iff_ne.mpr (fun he => hxy he.symm)]
        simp only [hmem]
        by_cases hs : x ∈ seen
        · simp [hs]
        · simp [hs]
    · rw [duplicatedAux, if_neg hy, ih (y :: seen), List.count_cons]
      by_cases hxy : x = y
      · subst hxy
        simp [hy]
      · have hmem : x ∈ y :: seen ↔ x ∈ seen := by
          rw [List.mem_cons]
          constructor
          · rintro (h | h)
            · exact absurd h hxy
            · exact h
          · exact Or.inr
        rw [beq_eq_false_iff_ne.mpr (fun he => hxy he.symm)]
        simp only [hmem]
        by_cases hs : x ∈ seen
        · simp [hs]
        · simp [hs]

theorem count_duplicatedCols (x : String) (names : List String) :
    (duplicatedCols names).count x = names.count x - 1 := by
  unfold duplicatedCols
  rw [count_duplicatedAux x names []]
  simp

theorem mem_duplicatedCols_iff {x : String} {names : List String} :
    x ∈ duplicatedCols names ↔ 2 ≤ names.count x := by
  constructor
  · intro h
    have h1 : 0 < (duplicatedCols names).count x := List.count_pos_iff.mpr h
    rw [count_duplicatedCols] at h1
    omega
  · intro h
    apply List.count_pos_iff.mp
    rw [count_duplicatedCols]
    omega

theorem filter_locCols (df : Table) (nm : String) :
    ∀ ls : List String,
      (locCols df ls).filter (fun c => c.1 = nm)
        = (List.replicate (ls.count nm) (df.filter (fun c => c.1 = nm))).flatten := by
  intro ls
  induction ls with
  | nil => rfl
  | cons l ls ih =>
    have hstep : locCols df (l :: ls)
        = df.filter (fun c => c.1 = l) ++ locCols df ls := rfl
    rw [hstep, List.filter_append, List.count_cons]
    have hrest : (locCols df ls).filter (fun c => c.1 = nm)
        = (List.replicate (ls.count nm) (df.filter (fun c => c.1 = nm))).flatten := ih
    by_cases hl : l = nm
    · subst hl
      have hff : (df.filter (fun c => c.1 = l)).filter (fun c => c.1 = l)
          = df.filter (fun c => c.1 = l) := by
        rw [List.filter_filter]
        apply List.filter_congr
        intro c hc
        by_cases h : c.1 = l <;> simp [h]
      rw [hff, hrest]
      have : (l == l) = true := beq_self_eq_true l
      rw [this, if_pos rfl]
      rw [show ls.count l + 1 = (ls.count l).succ from rfl, List.replicate_succ,
        List.flatten_cons]
    · have hbeq : (l == nm) = false := beq_eq_false_iff_ne.mpr hl
      have hnil : (df.filter (fun c => c.1 = l)).filter (fun c => c.1 = nm) = [] := by
        rw [List.filter_eq_nil_iff]
        intro c hc
        have : c.1 = l := by simpa using (List.mem_filter.mp hc).2
        simp [this, hl]
      rw [hnil, hrest, hbeq]
      simp

theorem meanRow_ok {vals : List Val} (h : numericCol vals) :
    meanRow vals = .ok (meanOfPresent vals) := by
  have hany : ((vals.filterMap id).any
      (fun v => match v with | .inl _ => true | .inr _ => false)) = false := by
    rw [List.any_eq_false]
    intro v hv
    rcases List.mem_filterMap.mp hv with ⟨a, ha, hid⟩
    have ha2 : a = some v := by
      cases a with
      | none => cases hid
      | some x => simpa using hid
    subst ha2
    match v with
    | .inl s => exact fun _ => (h (some (.inl s)) ha s) rfl
    | .inr q => simp
  simp only [meanRow, meanOfPresent, hany, Bool.false_eq_true, if_false]
  rw [apply_ite Except.ok]

theorem length_pos_of_one_le {m : Nat} (h : 1 ≤ m) : (m : ℚ) ≠ 0 := by
  intro hc
  have : m = 0 := by exact_mod_cast hc
  omega

theorem meanOfPresent_flatten_replicate {m : Nat} (hm : 1 ≤ m) (vals : List Val) :
    meanOfPresent ((List.replicate m vals).flatten) = meanOfPresent vals := by
  simp only [meanOfPresent]
  rw [List.filterMap_flatten, List.map_replicate, List.filterMap_flatten,
    List.map_replicate]
  set nums := (vals.filterMap id).filterMap
    (fun v => match v with | .inr q => some q | .inl _ => none) with hnums
  have hlen : ((List.replicate m nums).flatten).length = m * nums.length := by
    rw [List.length_flatten, List.map_replicate, List.sum_replicate]
    simp [Nat.smul_one_eq_cast]
  have hsum : ((List.replicate m nums).flatten).sum = (m : ℚ) * nums.sum := by
    rw [List.sum_flatten, List.map_replicate, List.sum_replicate, nsmul_eq_mul]
  by_cases hempty : nums.isEmpty
  · have h1 : nums = [] := List.isEmpty_iff.mp hempty
    have h2 : ((List.replicate m nums).flatten).isEmpty = true := by
      rw [List.isEmpty_iff, ← List.length_eq_zero, hlen, h1]
      simp
    rw [if_pos h2, if_pos hempty]
  · have h1 : ¬ ((List.replicate m nums).flatten).isEmpty = true := by
      intro hc
      rw [List.isEmpty_iff, ← List.length_eq_zero, hlen] at hc
      rcases Nat.mul_eq_zero.mp hc with h | h
      · omega
      · exact hempty (by rw [List.isEmpty_iff, ← List.length_eq_zero, h])
    rw [if_neg h1, if_neg hempty, hsum, hlen]
    rw [Nat.cast_mul]
    rw [mul_div_mul_left _ _ (length_pos_of_one_le hm)]

theorem numericCol_getD {vals : List Val} (h : numericCol vals) (i : Nat) (s : String) :
    vals.getD i none ≠ some (.inl s) := by
  by_cases hi : i < vals.length
  · rw [List.getD_eq_getElem _ _ hi]
    exact h _ (List.getElem_mem hi) s
  · rw [List.getD_eq_default]
    · simp
    · omega

theorem getCol_map_pairs (f : String → List Val) :
    ∀ (names : List String) (nm : String), nm ∈ names →
      getCol (names.map (fun n2 => (n2, f n2))) nm = some (f nm) := by
  intro names
  induction names with
  | nil => intro nm h; cases h
  | cons a as ih =>
    intro nm h
    by_cases ha : a = nm
    · subst ha
      unfold getCol
      rw [List.map_cons, List.find?_cons_of_pos _ (by simp)]
      rfl
    · rcases List.mem_cons.mp h with h2 | h2
      · exact absurd h2.symm ha
      · have := ih nm h2
        unfold getCol at this ⊢
        rw [List.map_cons, List.find?_cons_of_neg _ (by simpa using ha)]
        exact this

theorem getD_map_range {α : Type} {n i : Nat} (f : Nat → α) (hi : i < n) (d : α) :
    ((List.range n).map f).getD i d = f i := by
  have hlen : i < ((List.range n).map f).length := by simpa using hi
  rw [List.getD_eq_getElem _ _ hlen, List.getElem_map, List.getElem_range]

set_option maxHeartbeats 1600000 in
unseal Rat.mul Rat.inv Rat.ofScientific Rat.add in
/-- C3: for every group of columns sharing a duplicated name, the merged
column of `remove_duplicate_columns` holds at every row the arithmetic
mean of the non-missing values among the colliding columns (missing when
all collide as missing, the single value when exactly one is present),
columns with unique names pass through unchanged, and the two-column
collision `[1, NaN], [NaN, 3], [2, 4], [NaN, NaN]` merges to
`[1, 3, 3, NaN]`. -/
theorem remove_duplicate_columns_mean_merge (df : Table) (nm : String)
    (hdup : 2 ≤ (colNames df).count nm)
    (hnum : ∀ c ∈ df, 2 ≤ (colNames df).count c.1 → numericCol c.2) :
    (∃ out vs, remove_duplicate_columns df = .ok out ∧
      getCol out nm = some vs ∧
      vs.length = nRows df ∧
      (∀ i, i < nRows df →
        vs.getD i none =
          meanOfPresent ((df.filter (fun c => c.1 = nm)).map
            (fun c => c.2.getD i none))) ∧
      (∀ c ∈ df, (colNames df).count c.1 = 1 → c ∈ out)) ∧
    (∀ vals : List Val, (∀ v ∈ vals, v = none) → meanOfPresent vals = none) ∧
    (∀ (vals : List Val) (q : ℚ), vals.filterMap id = [.inr q] →
      meanOfPresent vals = some (.inr q)) ∧
    remove_duplicate_columns
      [("A", [some (.inr 1), none, some (.inr 2), none]),
       ("A", [none, some (.inr 3), some (.inr 4), none])]
      = .ok [("A", [some (.inr 1), some (.inr 3), some (.inr 3), none])] := by
  refine ⟨?_, ?_, ?_, by decide⟩
  · have hselnum : ∀ c ∈ locCols df (duplicatedCols (colNames df)), numericCol c.2 := by
      intro c hc
      rcases mem_locCols.mp hc with ⟨hcdf, hcdup⟩
      exact hnum c hcdf (mem_duplicatedCols_iff.mp hcdup)
    have hinner : ∀ nm2, mapE (fun i => meanRow
        ((((locCols df (duplicatedCols (colNames df))).filter
          (fun c => c.1 = nm2)).map (·.2)).map (fun c => c.getD i none)))
        (List.range (nRows df))
        = .ok ((List.range (nRows df)).map (fun i =>
            meanOfPresent ((((locCols df (duplicatedCols (colNames df))).filter
              (fun c => c.1 = nm2)).map (·.2)).map (fun c => c.getD i none)))) := by
      intro nm2
      apply mapE_ok_of_forall
      intro i hi
      apply meanRow_ok
      intro v hv s
      rcases List.mem_map.mp hv with ⟨col, hcol, rfl⟩
      rcases List.mem_map.mp hcol with ⟨c, hc, rfl⟩
      exact numericCol_getD (hselnum c (List.mem_filter.mp hc).1) i s
    have hgb : groupbyMean (nRows df) (locCols df (duplicatedCols (colNames df)))
        = .ok ((groupNames (locCols df (duplicatedCols (colNames df)))).map
          (fun nm2 => (nm2, (List.range (nRows df)).map (fun i =>
            meanOfPresent ((((locCols df (duplicatedCols (colNames df))).filter
              (fun c => c.1 = nm2)).map (·.2)).map (fun c => c.getD i none)))))) := by
      unfold groupbyMean
      apply mapE_ok_of_forall
      intro nm2 hnm2
      show (do
        let vs ← mapE (fun i => meanRow
          ((((locCols df (duplicatedCols (colNames df))).filter
            (fun (c : String × List Val) => c.1 = nm2)).map
              (fun (x : String × List Val) => x.2)).map
            (fun (c : List Val) => c.getD i none)))
          (List.range (nRows df))
        return (nm2, vs)) = _
      rw [hinner nm2]
      rfl
    have hrdc : remove_duplicate_columns df
        = .ok (df.filter (fun c => c.1 ∉ duplicatedCols (colNames df)) ++
          (groupNames (locCols df (duplicatedCols (colNames df)))).map
            (fun nm2 => (nm2, (List.range (nRows df)).map (fun i =>
              meanOfPresent ((((locCols df (duplicatedCols (colNames df))).filter
                (fun c => c.1 = nm2)).map (·.2)).map (fun c => c.getD i none)))))) := by
      show (do
        let merged ← groupbyMean (nRows df) (locCols df (duplicatedCols (colNames df)))
        return (df.filter (fun (c : String × List Val) =>
          c.1 ∉ duplicatedCols (colNames df)) ++ merged)) = _
      rw [hgb]
      rfl
    have hnmdup : nm ∈ duplicatedCols (colNames df) := mem_duplicatedCols_iff.mpr hdup
    have hnmdf : nm ∈ colNames df := by
      have : 0 < (colNames df).count nm := by omega
      exact List.count_pos_iff.mp this
    have hnmsel : nm ∈ colNames (locCols df (duplicatedCols (colNames df))) := by
      rcases List.mem_map.mp hnmdf with ⟨c, hc, rfl⟩
      exact List.mem_map.mpr ⟨c, mem_locCols.mpr ⟨hc, hnmdup⟩, rfl⟩
    have hnmgroups : nm ∈ groupNames (locCols df (duplicatedCols (colNames df))) := by
      unfold groupNames
      rw [mem_pySorted, mem_uniqueVals]
      exact hnmsel
    have hnotkept : nm ∉ colNames
        (df.filter (fun c => c.1 ∉ duplicatedCols (colNames df))) := by
      intro hmem
      rcases List.mem_map.mp hmem with ⟨c, hc, hcnm⟩
      have h2 := (List.mem_filter.mp hc).2
      have h3 : c.1 ∉ duplicatedCols (colNames df) := by simpa using h2
      rw [hcnm] at h3
      exact h3 hnmdup
    have hk1 : 1 ≤ (duplicatedCols (colNames df)).count nm := by
      rw [count_duplicatedCols]
      omega
    refine ⟨_, (List.range (nRows df)).map (fun i =>
      meanOfPresent ((((locCols df (duplicatedCols (colNames df))).filter
        (fun (c : String × List Val) => c.1 = nm)).map
          (fun (x : String × List Val) => x.2)).map
        (fun (c : List Val) => c.getD i none))), hrdc, ?_, by simp, ?_, ?_⟩
    · rw [getCol_append_of_not_mem_left hnotkept]
      exact getCol_map_pairs _ _ nm hnmgroups
    · intro i hi
      rw [getD_map_range _ hi]
      rw [List.map_map, filter_locCols df nm, List.map_flatten, List.map_replicate]
      rw [meanOfPresent_flatten_replicate hk1]
      rfl
    · intro c hc hone
      apply List.mem_append.mpr
      left
      apply List.mem_filter.mpr
      refine ⟨hc, ?_⟩
      have : c.1 ∉ duplicatedCols (colNames df) := by
        rw [mem_duplicatedCols_iff]
        omega
      simpa using this
  · intro vals hall
    have h1 : vals.filterMap id = [] := by
      rw [List.filterMap_eq_nil_iff]
      intro a ha
      rw [hall a ha]
      rfl
    simp [meanOfPresent, h1]
  · intro vals q hq
    simp [meanOfPresent, hq]

/-! ### C8: the pixel-only branch of the coordinate resolver -/

theorem convertDim_px_only {ps : ℚ} {df : Table} {dim : String} {pxv : List Val}
    (hum : ("Centroid " ++ dim ++ " µm") ∉ colNames df)
    (hpx : ("Centroid " ++ dim ++ " px") ∈ colNames df)
    (hget : getCol df ("Centroid " ++ dim ++ " px") = some pxv)
    (hnum : numericCol pxv) :
    convertDim ps df dim =
      .ok (dropCol (df ++ [("Centroid " ++ dim ++ " µm", scaleSeries ps pxv)])
        ("Centroid " ++ dim ++ " px")) := by
  unfold convertDim
  rw [if_neg (fun hc => hum hc.1), if_pos ⟨hum, hpx⟩, hget]
  show (do
    let scaled ← seriesMulQ pxv ps
    pure (dropCol (setCol df ("Centroid " ++ dim ++ " µm") scaled)
      ("Centroid " ++ dim ++ " px"))) =
    Except.ok (dropCol (df ++ [("Centroid " ++ dim ++ " µm", scaleSeries ps pxv)])
      ("Centroid " ++ dim ++ " px"))
  rw [seriesMulQ_ok hnum]
  show Except.ok (dropCol (setCol df ("Centroid " ++ dim ++ " µm")
      (scaleSeries ps pxv)) ("Centroid " ++ dim ++ " px")) = _
  unfold setCol
  rw [if_neg hum]

theorem convertDim_um_only {ps : ℚ} {df : Table} {dim : String}
    (hum : ("Centroid " ++ dim ++ " µm") ∈ colNames df)
    (hpx : ("Centroid " ++ dim ++ " px") ∉ colNames df) :
    convertDim ps df dim = .ok df := by
  unfold convertDim
  rw [if_neg (fun hc => hpx hc.2), if_neg (fun hc => hpx hc.2), if_pos ⟨hum, hpx⟩]

unseal Rat.mul Rat.inv Rat.ofScientific Rat.add in
theorem convert_concrete_px100_eval :
    convert_pixels_to_micrometre
      [("Centroid X px", [some (.inr 100)]), ("Centroid Y px", [some (.inr 100)])]
      = .ok [("Centroid X µm", [some (.inr 39.06)]),
             ("Centroid Y µm", [some (.inr 39.06)])] := by
  decide

/-- C8: when for each axis only the pixel column is present, the resolver
creates the µm column as px×0.3906 for all rows and drops the px column;
a pixel value of 100 yields exactly 39.06 in the rational model; and when
only µm columns exist the table passes through unchanged, so pixel
columns remain entirely absent from the output. -/
theorem convert_px_only_branch (df : Table) (ps : ℚ)
    (pxvX pxvY : List Val) :
    (("Centroid X µm" ∉ colNames df ∧ "Centroid X px" ∈ colNames df ∧
      "Centroid Y µm" ∉ colNames df ∧ "Centroid Y px" ∈ colNames df ∧
      getCol df "Centroid X px" = some pxvX ∧
      getCol df "Centroid Y px" = some pxvY ∧
      numericCol pxvX ∧ numericCol pxvY) →
      ∃ df2, convert_pixels_to_micrometre df ps = .ok df2 ∧
        getCol df2 "Centroid X µm" = some (scaleSeries 0.3906 pxvX) ∧
        getCol df2 "Centroid Y µm" = some (scaleSeries 0.3906 pxvY) ∧
        "Centroid X px" ∉ colNames df2 ∧
        "Centroid Y px" ∉ colNames df2) ∧
    (("Centroid X µm" ∈ colNames df ∧ "Centroid X px" ∉ colNames df ∧
      "Centroid Y µm" ∈ colNames df ∧ "Centroid Y px" ∉ colNames df) →
      convert_pixels_to_micrometre df ps = .ok df) ∧
    convert_pixels_to_micrometre
      [("Centroid X px", [some (.inr 100)]), ("Centroid Y px", [some (.inr 100)])] ps
      = .ok [("Centroid X µm", [some (.inr 39.06)]),
             ("Centroid Y µm", [some (.inr 39.06)])] := by
  refine ⟨?_, ?_, ?_⟩
  · rintro ⟨hXu, hXp, hYu, hYp, hgX, hgY, hnX, hnY⟩
    have hXY : ("Centroid X µm" : String) ≠ "Centroid Y µm" := by decide
    have hXpY : ("Centroid X px" : String) ≠ "Centroid Y px" := by decide
    have e1 : convertDim 0.3906 df "X" =
        .ok (dropCol (df ++ [("Centroid X µm", scaleSeries 0.3906 pxvX)])
          "Centroid X px") :=
      convertDim_px_only hXu hXp hgX hnX
    set df1 := dropCol (df ++ [("Centroid X µm", scaleSeries 0.3906 pxvX)])
      "Centroid X px" with hdf1
    have hYu1 : "Centroid Y µm" ∉ colNames df1 := by
      rw [hdf1]
      intro hmem
      rcases mem_colNames_dropCol.mp hmem with ⟨hmem2, -⟩
      unfold colNames at hmem2
      rw [List.map_append] at hmem2
      rcases List.mem_append.mp hmem2 with h | h
      · exact hYu h
      · simp at h
    have hYp1 : "Centroid Y px" ∈ colNames df1 := by
      rw [hdf1]
      apply mem_colNames_dropCol.mpr
      refine ⟨?_, by decide⟩
      unfold colNames
      rw [List.map_append]
      exact List.mem_append.mpr (Or.inl hYp)
    have hgY1 : getCol df1 "Centroid Y px" = some pxvY := by
      rw [hdf1, getCol_dropCol_ne (by decide), getCol_append_left ?_, hgY]
      exact hYp
    have e2 : convertDim 0.3906 df1 "Y" =
        .ok (dropCol (df1 ++ [("Centroid Y µm", scaleSeries 0.3906 pxvY)])
          "Centroid Y px") :=
      convertDim_px_only hYu1 hYp1 hgY1 hnY
    set df2 := dropCol (df1 ++ [("Centroid Y µm", scaleSeries 0.3906 pxvY)])
      "Centroid Y px" with hdf2
    refine ⟨df2, ?_, ?_, ?_, ?_, ?_⟩
    · show (do
        let dfX ← convertDim 0.3906 df "X"
        convertDim 0.3906 dfX "Y") = Except.ok df2
      rw [e1]
      show convertDim 0.3906 df1 "Y" = Except.ok df2
      rw [e2]
    · have humX1 : "Centroid X µm" ∈ colNames df1 := by
        rw [hdf1]
        apply mem_colNames_dropCol.mpr
        refine ⟨?_, by decide⟩
        unfold colNames
        rw [List.map_append]
        exact List.mem_append.mpr (Or.inr (by simp))
      rw [hdf2, getCol_dropCol_ne (by decide), getCol_append_left humX1, hdf1,
        getCol_dropCol_ne (by decide), getCol_append_of_not_mem_left hXu,
        getCol_singleton]
    · rw [hdf2, getCol_dropCol_ne (by decide)]
      rw [getCol_append_of_not_mem_left hYu1, getCol_singleton]
    · rw [hdf2]
      intro hmem
      rcases mem_colNames_dropCol.mp hmem with ⟨hmem2, -⟩
      unfold colNames at hmem2
      rw [List.map_append] at hmem2
      rcases List.mem_append.mp hmem2 with h | h
      · rw [hdf1] at h
        rcases mem_colNames_dropCol.mp h with ⟨-, hne⟩
        exact hne rfl
      · simp at h
    · rw [hdf2]
      intro hmem
      exact (mem_colNames_dropCol.mp hmem).2 rfl
  · rintro ⟨hXu, hXp, hYu, hYp⟩
    show (do
      let dfX ← convertDim 0.3906 df "X"
      convertDim 0.3906 dfX "Y") = Except.ok df
    rw [convertDim_um_only hXu hXp]
    show convertDim 0.3906 df "Y" = Except.ok df
    exact convertDim_um_only hYu hYp
  · exact convert_concrete_px100_eval

/-- C8 witness: the pixel-only branch applied to a concrete table with
pixel value 100 (and an arbitrary `pixel_size` argument of 5, which the
resolver ignores). -/
theorem convert_px_only_branch_witness :
    ∃ df2, convert_pixels_to_micrometre
        [("Centroid X px", [some (.inr 100)]), ("Centroid Y px", [some (.inr 100)])] 5
        = .ok df2 ∧
      getCol df2 "Centroid X µm" = some (scaleSeries 0.3906 [some (.inr 100)]) ∧
      getCol df2 "Centroid Y µm" = some (scaleSeries 0.3906 [some (.inr 100)]) ∧
      "Centroid X px" ∉ colNames df2 ∧
      "Centroid Y px" ∉ colNames df2 :=
  (convert_px_only_branch
    [("Centroid X px", [some (.inr 100)]), ("Centroid Y px", [some (.inr 100)])] 5
    [some (.inr 100)] [some (.inr 100)]).1
    ⟨by decide, by decide, by decide, by decide, by decide, by decide,
     by intro v hv s; rw [List.mem_singleton] at hv; subst hv; simp,
     by intro v hv s; rw [List.mem_singleton] at hv; subst hv; simp⟩

/-- C3 witness: the theorem applied to the two-column collision table of
the claim. -/
theorem remove_duplicate_columns_mean_merge_witness :
    remove_duplicate_columns
      [("A", [some (.inr 1), none, some (.inr 2), none]),
       ("A", [none, some (.inr 3), some (.inr 4), none])]
      = .ok [("A", [some (.inr 1), some (.inr 3), some (.inr 3), none])] :=
  (remove_duplicate_columns_mean_merge
    [("A", [some (.inr 1), none, some (.inr 2), none]),
     ("A", [none, some (.inr 3), some (.inr 4), none])] "A"
    (by decide)
    (by
      intro c hc h2 v hv s
      have hcc : c = ("A", [some (.inr 1), none, some (.inr 2), none]) ∨
          c = ("A", [none, some (.inr 3), some (.inr 4), none]) := by
        simpa using hc
      rcases hcc with rfl | rfl <;>
        (simp only [List.mem_cons, List.not_mem_nil, or_false] at hv;
         rcases hv with rfl | rfl | rfl | rfl <;> simp))).2.2.2

/-! ### C2: binary-mode label processing -/

theorem sorted_pair_of_length_two {l : List String}
    (hs : List.Sorted (· ≤ ·) l) (hn : l.Nodup) (h2 : l.length = 2) :
    ∃ l0 l1, l = [l0, l1] ∧ l0 < l1 := by
  match l, h2 with
  | [l0, l1], _ =>
    refine ⟨l0, l1, rfl, ?_⟩
    have hle : l0 ≤ l1 := by
      have := List.sorted_cons.mp hs
      exact this.1 l1 (List.mem_cons_self _ _)
    have hne : l0 ≠ l1 := by
      intro he
      subst he
      exact (List.nodup_cons.mp hn).1 (List.mem_cons_self _ _)
    exact lt_of_le_of_ne hle hne

/-- C2: with a `Classification` column holding exactly two distinct
values, the persisted decoder maps index 1 to the alphabetically-first
value and index 0 to the alphabetically-second value, while every row is
encoded as 1 exactly when the raw string contains the character `+`,
independently of the alphabetical assignment. -/
theorem binarize_binary_mode (cls : List String)
    (h2 : (uniqueVals cls).length = 2) :
    ∃ l0 l1 : String,
      pySorted (uniqueVals cls) = [l0, l1] ∧ l0 < l1 ∧
      (∀ v, v ∈ cls ↔ (v = l0 ∨ v = l1)) ∧
      binarize_and_save_fm cls =
        .ok ([(1, l0), (0, l1)], [(l0, 1), (l1, 0)],
          cls.map (fun x => if hasPlus x then 1 else 0)) ∧
      pyDictGet [(1, l0), (0, l1)] 1 = some l0 ∧
      pyDictGet [(1, l0), (0, l1)] 0 = some l1 := by
  have hperm := perm_pySorted (uniqueVals cls)
  have hlen : (pySorted (uniqueVals cls)).length = 2 := by
    rw [hperm.length_eq, h2]
  have hsorted := sorted_pySorted (uniqueVals cls)
  have hnodup := nodup_pySorted (@nodup_uniqueVals cls)
  obtain ⟨l0, l1, heq, hlt⟩ := sorted_pair_of_length_two hsorted hnodup hlen
  refine ⟨l0, l1, heq, hlt, ?_, ?_, ?_, ?_⟩
  · intro v
    rw [← mem_uniqueVals, ← hperm.mem_iff, heq]
    simp
  · unfold binarize_and_save_fm
    rw [heq]
  · simp [pyDictGet, List.lookup]
  · simp [pyDictGet, List.lookup]

/-- C2 witness: the theorem applied to the concrete column
`["CD8+", "CD8-"]`. -/
theorem binarize_binary_mode_witness :
    (uniqueVals ["CD8+", "CD8-"]).length = 2 ∧
    ∃ l0 l1 : String,
      pySorted (uniqueVals ["CD8+", "CD8-"]) = [l0, l1] ∧ l0 < l1 ∧
      (∀ v, v ∈ ["CD8+", "CD8-"] ↔ (v = l0 ∨ v = l1)) ∧
      binarize_and_save_fm ["CD8+", "CD8-"] =
        .ok ([(1, l0), (0, l1)], [(l0, 1), (l1, 0)],
          ["CD8+", "CD8-"].map (fun x => if hasPlus x then 1 else 0)) ∧
      pyDictGet [(1, l0), (0, l1)] 1 = some l0 ∧
      pyDictGet [(1, l0), (0, l1)] 0 = some l1 :=
  ⟨by decide, binarize_binary_mode ["CD8+", "CD8-"] (by decide)⟩

/-! ### C5: the isolated-period rule of the column normalizer -/

theorem headIsDigit_eq_getD (rest : List Char) :
    headIsDigit rest = isDigitChar (rest.getD 0 ' ') := by
  cases rest with
  | nil => decide
  | cons c cs => rfl

theorem dotToSpaceAux_length (t : List Char) :
    ∀ prev, (dotToSpaceAux prev t).length = t.length := by
  induction t with
  | nil => intro prev; rfl
  | cons c rest ih =>
    intro prev
    unfold dotToSpaceAux
    by_cases h : c = '.' ∧ isDigitOpt prev = false ∧ headIsDigit rest = false
    · simp only [if_pos h, List.length_cons, ih]
    · simp only [if_neg h, List.length_cons, ih]

theorem dotToSpaceAux_getD (t : List Char) :
    ∀ (prev : Option Char) (i : Nat), i < t.length →
      (dotToSpaceAux prev t).getD i ' ' =
        if (t.getD i ' ' = '.')
            ∧ ((if i = 0 then isDigitOpt prev else isDigitChar (t.getD (i - 1) ' ')) = false)
            ∧ (isDigitChar (t.getD (i + 1) ' ') = false)
        then ' ' else t.getD i ' ' := by
  induction t with
  | nil => intro prev i hi; cases hi
  | cons c rest ih =>
    intro prev i hi
    have hcons : dotToSpaceAux prev (c :: rest)
        = if c = '.' ∧ isDigitOpt prev = false ∧ headIsDigit rest = false
          then ' ' :: dotToSpaceAux (some c) rest
          else c :: dotToSpaceAux (some c) rest := rfl
    cases i with
    | zero =>
      have hhead : isDigitChar ((c :: rest).getD (0 + 1) ' ') = headIsDigit rest := by
        rw [headIsDigit_eq_getD]
        rfl
      have h2iff : (((c :: rest).getD 0 ' ' = '.')
          ∧ ((if (0 : Nat) = 0 then isDigitOpt prev
              else isDigitChar ((c :: rest).getD (0 - 1) ' ')) = false)
          ∧ (isDigitChar ((c :: rest).getD (0 + 1) ' ') = false))
          ↔ (c = '.' ∧ isDigitOpt prev = false ∧ headIsDigit rest = false) := by
        rw [hhead]
        simp
      rw [hcons]
      by_cases h : c = '.' ∧ isDigitOpt prev = false ∧ headIsDigit rest = false
      · rw [if_pos h, if_pos (h2iff.mpr h)]
        rfl
      · rw [if_neg h, if_neg (fun hc => h (h2iff.mp hc))]
        rfl
    | succ i =>
      have hi2 : i < rest.length := by simpa using hi
      have hmid : (if i = 0 then isDigitOpt (some c)
            else isDigitChar (rest.getD (i - 1) ' '))
          = isDigitChar ((c :: rest).getD i ' ') := by
        cases i with
        | zero => rfl
        | succ j => rfl
      rw [hcons]
      by_cases h : c = '.' ∧ isDigitOpt prev = false ∧ headIsDigit rest = false
      · rw [if_pos h, List.getD_cons_succ, ih (some c) i hi2, hmid]
        rfl
      · rw [if_neg h, List.getD_cons_succ, ih (some c) i hi2, hmid]
        rfl

/-- C5 counterexample: on the raw column name `X.5` the period is not
between two digits, so by the claim it should become a space, yet
`remove_dots` keeps it (the code's regex keeps any period adjacent to a
digit on either side).  The rule as the specification words it
(`removeDotsSpecC5`) disagrees with the source on this input. -/
theorem remove_dots_isolated_period_counterexample :
    removeDotsName "X.5" = "X.5" ∧ removeDotsSpecC5 "X.5" = "X 5" ∧
    ("X.5" : String) ≠ "X 5" := by
  refine ⟨?_, ?_, ?_⟩ <;> decide

/-- C5 amended: after the vendor substitutions and period collapsing,
every remaining isolated period is converted to a space EXCEPT a period
adjacent to a digit — preceded by a digit or followed by one, in
particular a decimal point — and except the periods of the literal
abbreviation `Std.Dev.`, which is masked with a placeholder before the
rule and restored after, as the first conjunct places the rule inside
`remove_dots` and the closed conjuncts illustrate on `Cell..Std.Dev.` and
`Nucleus..Percentile..99.9`. -/
theorem remove_dots_isolated_period_rule (s : String) (t : List Char) (i : Nat)
    (h : i < t.length) :
    removeDotsName s =
      restoreStdDev (String.mk (dotToSpace (maskStdDev (collapseStage s)).data)) ∧
    (dotToSpace t).length = t.length ∧
    ((dotToSpace t).getD i ' ' =
      if (t.getD i ' ' = '.')
          ∧ (i = 0 ∨ isDigitChar (t.getD (i - 1) ' ') = false)
          ∧ (isDigitChar (t.getD (i + 1) ' ') = false)
      then ' ' else t.getD i ' ') ∧
    removeDotsName "Cell..Std.Dev." = "Cell: Std.Dev." ∧
    removeDotsName "Nucleus..Percentile..99.9" = "Nucleus: Percentile: 99.9" := by
  refine ⟨rfl, dotToSpaceAux_length t none, ?_, by decide, by decide⟩
  rw [dotToSpace, dotToSpaceAux_getD t none i h]
  by_cases h0 : i = 0
  · subst h0
    simp [isDigitOpt]
  · simp only [if_neg h0]
    have : (i = 0 ∨ isDigitChar (t.getD (i - 1) ' ') = false)
        ↔ (isDigitChar (t.getD (i - 1) ' ') = false) := by
      constructor
      · rintro (hc | hc)
        · exact absurd hc h0
        · exact hc
      · exact Or.inr
    simp only [this]

/-- C5 amended witness: the rule evaluated at the string `a.b`, where the
middle period is adjacent to no digit and becomes a space. -/
theorem remove_dots_isolated_period_rule_witness :
    (1 < ("a.b".data).length) ∧
    (removeDotsName "X" =
      restoreStdDev (String.mk (dotToSpace (maskStdDev (collapseStage "X")).data)) ∧
    (dotToSpace "a.b".data).length = ("a.b".data).length ∧
    ((dotToSpace "a.b".data).getD 1 ' ' =
      if (("a.b".data).getD 1 ' ' = '.')
          ∧ ((1 : Nat) = 0 ∨ isDigitChar (("a.b".data).getD (1 - 1) ' ') = false)
          ∧ (isDigitChar (("a.b".data).getD (1 + 1) ' ') = false)
      then ' ' else ("a.b".data).getD 1 ' ') ∧
    removeDotsName "Cell..Std.Dev." = "Cell: Std.Dev." ∧
    removeDotsName "Nucleus..Percentile..99.9" = "Nucleus: Percentile: 99.9") :=
  ⟨by decide, remove_dots_isolated_period_rule "X" "a.b".data 1 (by decide)⟩

/-! ### C4: encoder/decoder bijection -/

theorem getD_nodup_inj {ct : List String} (hnd : ct.Nodup) {i j : Nat}
    (hi : i < ct.length) (hj : j < ct.length)
    (h : ct.getD i "" = ct.getD j "") : i = j := by
  rw [List.getD_eq_getElem ct "" hi, List.getD_eq_getElem ct "" hj] at h
  exact (List.Nodup.getElem_inj_iff hnd).mp h

theorem pyDictGet_create_encoder {ct : List String} (hnd : ct.Nodup) {i : Nat}
    (hi : i < ct.length) :
    pyDictGet (create_encoder ct) (ct.getD i "") = some i := by
  unfold pyDictGet
  apply lookup_eq_some_of_mem_unique
  · rw [List.mem_reverse]
    exact List.mem_map.mpr ⟨i, List.mem_range.mpr hi, rfl⟩
  · intro p hp hkey
    rw [List.mem_reverse] at hp
    rcases List.mem_map.mp hp with ⟨j, hj, rfl⟩
    exact (getD_nodup_inj hnd (List.mem_range.mp hj) hi hkey).symm ▸ rfl

theorem encoder_lookup_inv {ct : List String} {l : String} {i : Nat}
    (h : pyDictGet (create_encoder ct) l = some i) :
    i < ct.length ∧ l = ct.getD i "" := by
  unfold pyDictGet at h
  have hmem := mem_of_lookup_eq_some h
  rw [List.mem_reverse] at hmem
  rcases List.mem_map.mp hmem with ⟨j, hj, he⟩
  have h1 : ct.getD j "" = l := congrArg Prod.fst he
  have h2 : j = i := congrArg Prod.snd he
  subst h2
  exact ⟨List.mem_range.mp hj, h1.symm⟩

theorem pyDictGet_create_decoder {ct : List String} {i : Nat}
    (hi : i < ct.length) :
    pyDictGet (create_decoder ct) i = some (ct.getD i "") := by
  unfold pyDictGet
  apply lookup_eq_some_of_mem_unique
  · rw [List.mem_reverse]
    exact List.mem_map.mpr ⟨i, List.mem_range.mpr hi, rfl⟩
  · intro p hp hkey
    rw [List.mem_reverse] at hp
    rcases List.mem_map.mp hp with ⟨j, hj, rfl⟩
    simp only at hkey
    rw [hkey]

theorem pyDictGet_create_decoder_none {ct : List String} {i : Nat}
    (hi : ¬ i < ct.length) :
    pyDictGet (create_decoder ct) i = none := by
  unfold pyDictGet
  apply lookup_eq_none_of_forall
  intro p hp
  rw [List.mem_reverse] at hp
  rcases List.mem_map.mp hp with ⟨j, hj, rfl⟩
  intro he
  exact hi (he ▸ List.mem_range.mp hj)

/-- C4: for every non-empty raw label list, the working label set (the
distinct labels sorted alphabetically) together with `create_encoder` and
`create_decoder` forms a bijection with exactly the indices `0..N-1`:
every label encodes to an index below `N` that decodes back to it, every
index below `N` is hit, indices at or above `N` decode to nothing, and the
encoding is injective. -/
theorem encoder_decoder_bijection (vals : List String) (hne : vals ≠ []) :
    List.Sorted (· ≤ ·) (pySorted (uniqueVals vals)) ∧
    pySorted (uniqueVals vals) ≠ [] ∧
    (pySorted (uniqueVals vals)).Nodup ∧
    (∀ l ∈ pySorted (uniqueVals vals), ∃ i, i < (pySorted (uniqueVals vals)).length ∧
      pyDictGet (create_encoder (pySorted (uniqueVals vals))) l = some i ∧
      pyDictGet (create_decoder (pySorted (uniqueVals vals))) i = some l) ∧
    (∀ i, i < (pySorted (uniqueVals vals)).length →
      ∃ l ∈ pySorted (uniqueVals vals),
        pyDictGet (create_encoder (pySorted (uniqueVals vals))) l = some i) ∧
    (∀ i, ¬ i < (pySorted (uniqueVals vals)).length →
      pyDictGet (create_decoder (pySorted (uniqueVals vals))) i = none) ∧
    (∀ l1 l2 i, pyDictGet (create_encoder (pySorted (uniqueVals vals))) l1 = some i →
      pyDictGet (create_encoder (pySorted (uniqueVals vals))) l2 = some i → l1 = l2) := by
  set ct := pySorted (uniqueVals vals) with hct
  have hnd : ct.Nodup := nodup_pySorted (@nodup_uniqueVals vals)
  have hsorted : List.Sorted (· ≤ ·) ct := sorted_pySorted _
  have hne2 : ct ≠ [] := by
    rcases List.exists_mem_of_ne_nil vals hne with ⟨x, hx⟩
    intro h0
    have : x ∈ ct := by
      rw [hct]
      exact mem_pySorted.mpr (mem_uniqueVals.mpr hx)
    rw [h0] at this
    cases this
  refine ⟨hsorted, hne2, hnd, ?_, ?_, ?_, ?_⟩
  · intro l hl
    rcases List.mem_iff_get.mp hl with ⟨⟨i, hi⟩, hget⟩
    have hgetD : ct.getD i "" = l := by
      rw [List.getD_eq_getElem ct "" hi]
      exact hget
    exact ⟨i, hi, hgetD ▸ pyDictGet_create_encoder hnd hi,
      hgetD ▸ pyDictGet_create_decoder hi⟩
  · intro i hi
    refine ⟨ct.getD i "", ?_, pyDictGet_create_encoder hnd hi⟩
    rw [List.getD_eq_getElem ct "" hi]
    exact List.getElem_mem hi
  · intro i hi
    exact pyDictGet_create_decoder_none hi
  · intro l1 l2 i h1 h2
    rcases encoder_lookup_inv h1 with ⟨-, he1⟩
    rcases encoder_lookup_inv h2 with ⟨-, he2⟩
    rw [he1, he2]

/-- C4 witness: the theorem applied to the concrete raw labels
`["Other", "B cells", "Other"]`. -/
theorem encoder_decoder_bijection_witness :
    ["Other", "B cells", "Other"] ≠ ([] : List String) ∧
    (List.Sorted (· ≤ ·) (pySorted (uniqueVals ["Other", "B cells", "Other"])) ∧
     pySorted (uniqueVals ["Other", "B cells", "Other"]) ≠ [] ∧
     (pySorted (uniqueVals ["Other", "B cells", "Other"])).Nodup ∧
     (∀ l ∈ pySorted (uniqueVals ["Other", "B cells", "Other"]),
       ∃ i, i < (pySorted (uniqueVals ["Other", "B cells", "Other"])).length ∧
       pyDictGet (create_encoder (pySorted (uniqueVals ["Other", "B cells", "Other"]))) l
         = some i ∧
       pyDictGet (create_decoder (pySorted (uniqueVals ["Other", "B cells", "Other"]))) i
         = some l) ∧
     (∀ i, i < (pySorted (uniqueVals ["Other", "B cells", "Other"])).length →
       ∃ l ∈ pySorted (uniqueVals ["Other", "B cells", "Other"]),
         pyDictGet (create_encoder (pySorted (uniqueVals ["Other", "B cells", "Other"]))) l
           = some i) ∧
     (∀ i, ¬ i < (pySorted (uniqueVals ["Other", "B cells", "Other"])).length →
       pyDictGet (create_decoder (pySorted (uniqueVals ["Other", "B cells", "Other"]))) i
         = none) ∧
     (∀ l1 l2 i,
       pyDictGet (create_encoder (pySorted (uniqueVals ["Other", "B cells", "Other"]))) l1
         = some i →
       pyDictGet (create_encoder (pySorted (uniqueVals ["Other", "B cells", "Other"]))) l2
         = some i → l1 = l2)) :=
  ⟨by decide, encoder_decoder_bijection ["Other", "B cells", "Other"] (by decide)⟩



/-! ### C6: categorical-mode failure handling -/

theorem ok_bind {α β : Type} (a : α) (f : α → Except String β) :
    (Except.ok a >>= f : Except String β) = f a := rfl

theorem map_self_of_forall {α : Type} {l : List α} {f : α → α}
    (h : ∀ a ∈ l, f a = a) : l.map f = l := by
  rw [List.map_congr_left h]
  exact List.map_id l

theorem duplicatedAux_eq_nil_of_nodup :
    ∀ {l seen : List String}, l.Nodup → (∀ x ∈ l, x ∉ seen) →
      duplicatedAux seen l = [] := by
  intro l
  induction l with
  | nil => intro seen _ _; rfl
  | cons y ys ih =>
    intro seen hnd hdisj
    rw [duplicatedAux, if_neg (hdisj y (List.mem_cons_self _ _))]
    apply ih (List.nodup_cons.mp hnd).2
    intro x hx hmem
    rcases List.mem_cons.mp hmem with h | h
    · exact (List.nodup_cons.mp hnd).1 (h ▸ hx)
    · exact hdisj x (List.mem_cons_of_mem _ hx) h

theorem remove_duplicate_columns_nodup {df : Table}
    (h : (colNames df).Nodup) : remove_duplicate_columns df = .ok df := by
  have hdup : duplicatedCols (colNames df) = [] :=
    duplicatedAux_eq_nil_of_nodup h (fun x _ hx => List.not_mem_nil x hx)
  show (do
    let merged ← groupbyMean (nRows df) (locCols df (duplicatedCols (colNames df)))
    return (df.filter (fun (c : String × List Val) =>
      c.1 ∉ duplicatedCols (colNames df)) ++ merged)) = Except.ok df
  rw [hdup]
  have hfilter : df.filter (fun (c : String × List Val) => c.1 ∉ ([] : List String))
      = df := by
    rw [List.filter_eq_self]
    intro c _
    simp
  show (do
    let merged ← groupbyMean (nRows df) (locCols df [])
    return (df.filter (fun (c : String × List Val) =>
      c.1 ∉ ([] : List String)) ++ merged)) = Except.ok df
  have hgb : groupbyMean (nRows df) (locCols df []) = .ok [] := rfl
  rw [hgb, ok_bind, hfilter]
  rw [List.append_nil]
  rfl

theorem imputeGo_no_match {pat sub : String} :
    ∀ (nmList : List String) (t : Table),
      (∀ nm ∈ nmList, strContains nm pat = false) →
      imputeGo pat sub nmList t = .ok t := by
  intro nmList
  induction nmList with
  | nil => intro t _; rfl
  | cons nm rest ih =>
    intro t h
    have hnm : strContains nm pat = false := h nm (List.mem_cons_self _ _)
    have hrest := fun t2 => ih t2 (fun x hx => h x (List.mem_cons_of_mem _ hx))
    rcases hg : getCol t nm with _ | vals
    · simp only [imputeGo, hg]
      exact hrest t
    · simp only [imputeGo, hg]
      by_cases hany : vals.any (·.isNone)
      · rw [if_pos hany, if_neg (by simp [hnm])]
        exact hrest t
      · rw [if_neg hany]
        exact hrest t

theorem filter_name_ne_nil_of_mem {df : Table} {nm : String}
    (h : nm ∈ colNames df) :
    df.filter (fun c => c.1 = nm) ≠ [] := by
  rcases List.mem_map.mp h with ⟨c, hc, rfl⟩
  intro hnil
  rw [List.filter_eq_nil_iff] at hnil
  exact hnil c hc (by simp)

/-- C6: in categorical mode, when the label column (`Class`, with its
secondary `Name` column) is entirely missing, the label processor yields
no found/working label sets (`None`), encoder creation is skipped, no
decoder file is written, the persisted label file holds no content beyond
its header (every row is null), and the pipeline still runs to completion
producing the images artifact and the final feature table. -/
theorem categorical_all_null_label_column (df : Table) (clsv nmv : List Val)
    (cell_types_to_remove : List String) (change_to : String)
    (unwanted_markers unwanted_compartments unwanted_statistics : List String)
    (hClass : getCol df "Class" = some clsv)
    (hClassNull : ∀ v ∈ clsv, v = none)
    (hName : getCol df "Name" = some nmv)
    (hNameNull : ∀ v ∈ nmv, v = none)
    (hDots : ∀ c ∈ df, removeDotsName c.1 = c.1)
    (hPrefix : ∀ c ∈ df, replaceAllS (replaceAllS c.1 "Target:" "") "_" " " = c.1)
    (hNodup : (colNames df).Nodup)
    (hImage : "Image" ∈ colNames df)
    (hXum : "Centroid X µm" ∈ colNames df)
    (hYum : "Centroid Y µm" ∈ colNames df)
    (hXpx : "Centroid X px" ∉ colNames df)
    (hYpx : "Centroid Y px" ∉ colNames df)
    (hNoCyto : ∀ c ∈ df, strContains c.1 "Cytoplasm" = false)
    (hNoNuc : ∀ c ∈ df, strContains c.1 "Nucleus" = false) :
    ∃ arts : Artifacts,
      preprocess_training_data df cell_types_to_remove change_to []
        unwanted_markers unwanted_compartments unwanted_statistics = .ok arts ∧
      arts.foundCellTypes = none ∧
      arts.cellTypes = none ∧
      arts.decoderFile = none ∧
      (∀ r ∈ arts.labelFileRows, r = none) := by
  have hRD : remove_dots df = df := by
    apply map_self_of_forall
    intro c hc
    show (removeDotsName c.1, c.2) = c
    rw [hDots c hc]
  have hall : clsv.all (· = none) = true := by
    rw [List.all_eq_true]
    intro v hv
    rw [hClassNull v hv]
    simp
  have hCtc : preprocess_celltypecolumn df cell_types_to_remove change_to
      = .ok (none, none, df) := by
    simp only [preprocess_celltypecolumn, hClass, hall]
    rfl
  have hLabels : save_encoded_labels df none = .ok (nmv.map (fun v =>
      if v = some (.inl "Name") then none else v)) := by
    simp only [save_encoded_labels, hName]
  have hConv : convert_pixels_to_micrometre df = .ok df := by
    show (do
      let df2 ← convertDim 0.3906 df "X"
      convertDim 0.3906 df2 "Y") = Except.ok df
    rw [convertDim_um_only hXum hXpx, ok_bind]
    exact convertDim_um_only hYum hYpx
  have hImgs : ∃ imgs, getColsStrict df
      (["Image", "Centroid X µm", "Centroid Y µm"] ++ ([] : List String))
      = .ok imgs := by
    have hE : ∃ ys, mapE (fun nm =>
        match df.filter (fun c => c.1 = nm) with
        | [] => Except.error "KeyError"
        | cs => Except.ok cs)
        (["Image", "Centroid X µm", "Centroid Y µm"] ++ ([] : List String))
        = .ok ys := by
      apply mapE_ok_exists
      intro nm hnm
      have hmem : nm ∈ colNames df := by
        have : nm = "Image" ∨ nm = "Centroid X µm" ∨ nm = "Centroid Y µm" := by
          simpa using hnm
        rcases this with rfl | rfl | rfl
        · exact hImage
        · exact hXum
        · exact hYum
      have hne := filter_name_ne_nil_of_mem hmem
      rcases he : df.filter (fun c => c.1 = nm) with _ | ⟨c, cs⟩
      · exact absurd he hne
      · exact ⟨c :: cs, by rw [he]⟩
    obtain ⟨ys, hys⟩ := hE
    refine ⟨ys.flatten, ?_⟩
    unfold getColsStrict
    rw [hys, ok_bind]
    rfl
  obtain ⟨imgs, himgs⟩ := hImgs
  have hClass2 : getColStrict df "Class" = .ok clsv := by
    unfold getColStrict
    rw [hClass]
  have hRPU : remove_prefixes_underscores df = df := by
    apply map_self_of_forall
    intro c hc
    show (replaceAllS (replaceAllS c.1 "Target:" "") "_" " ", c.2) = c
    rw [hPrefix c hc]
  have hRDC : remove_duplicate_columns df = .ok df :=
    remove_duplicate_columns_nodup hNodup
  have hCyto : replace_cytoplasm_with_membrane
      (drop_markers df (collect_markers df) unwanted_markers)
      = .ok (drop_markers df (collect_markers df) unwanted_markers) := by
    unfold replace_cytoplasm_with_membrane
    apply imputeGo_no_match
    intro nm hnm
    rcases List.mem_map.mp hnm with ⟨c, hc, rfl⟩
    exact hNoCyto c (mem_drop_markers.mp hc).1
  have hNuc : use_cell_measurement
      (drop_markers df (collect_markers df) unwanted_markers)
      = .ok (drop_markers df (collect_markers df) unwanted_markers) := by
    unfold use_cell_measurement
    apply imputeGo_no_match
    intro nm hnm
    rcases List.mem_map.mp hnm with ⟨c, hc, rfl⟩
    exact hNoNuc c (mem_drop_markers.mp hc).1
  refine ⟨⟨none, none, none,
      nmv.map (fun v => if v = some (.inl "Name") then none else v),
      imgs,
      remove_statistics (remove_unwanted_compartments
        (drop_markers df (collect_markers df) unwanted_markers)
        unwanted_compartments) unwanted_statistics⟩, ?_, rfl, rfl, rfl, ?_⟩
  · simp only [preprocess_training_data, hRD, hCtc, ok_bind, hLabels, hConv,
      himgs, hClass2, hRPU, hRDC, hCyto, hNuc]
    rfl
  · intro r hr
    rcases List.mem_map.mp hr with ⟨v, hv, rfl⟩
    rw [hNameNull v hv]
    simp

/-- C6 witness: the theorem applied to a concrete table whose `Class` and
`Name` columns are entirely null. -/
theorem categorical_all_null_label_column_witness :
    ∃ arts : Artifacts,
      preprocess_training_data
        [("Image", [some (.inl "im1")]), ("Class", [none]), ("Name", [none]),
         ("Centroid X µm", [some (.inr 1)]), ("Centroid Y µm", [some (.inr 3)]),
         ("CD3: Cell: Mean", [some (.inr 5)])]
        ["Unknown"] "Other" [] [] [] [] = .ok arts ∧
      arts.foundCellTypes = none ∧
      arts.cellTypes = none ∧
      arts.decoderFile = none ∧
      (∀ r ∈ arts.labelFileRows, r = none) :=
  categorical_all_null_label_column
    [("Image", [some (.inl "im1")]), ("Class", [none]), ("Name", [none]),
     ("Centroid X µm", [some (.inr 1)]), ("Centroid Y µm", [some (.inr 3)]),
     ("CD3: Cell: Mean", [some (.inr 5)])]
    [none] [none] ["Unknown"] "Other" [] [] []
    (by decide)
    (by intro v hv; simpa using hv)
    (by decide)
    (by intro v hv; simpa using hv)
    (by
      intro c hc
      simp only [List.mem_cons, List.not_mem_nil, or_false] at hc
      rcases hc with rfl | rfl | rfl | rfl | rfl | rfl <;> decide)
    (by
      intro c hc
      simp only [List.mem_cons, List.not_mem_nil, or_false] at hc
      rcases hc with rfl | rfl | rfl | rfl | rfl | rfl <;> decide)
    (by decide) (by decide)
    (by decide) (by decide)
    (by decide) (by decide)
    (by
      intro c hc
      simp only [List.mem_cons, List.not_mem_nil, or_false] at hc
      rcases hc with rfl | rfl | rfl | rfl | rfl | rfl <;> decide)
    (by
      intro c hc
      simp only [List.mem_cons, List.not_mem_nil, or_false] at hc
      rcases hc with rfl | rfl | rfl | rfl | rfl | rfl <;> decide)

/-- C7 witness: the general theorem applied to a concrete table. -/
theorem drop_markers_augmented_token_witness :
    "CD45: Cell: Mean" ∈ colNames
      (drop_markers [("CD45: Cell: Mean", [some (.inr 2)])] ["CD45"] ["CD4"]) :=
  (drop_markers_augmented_token [("CD45: Cell: Mean", [some (.inr 2)])]
    ["CD45"] ["CD4"] "CD45: Cell: Mean").2.1 (by decide) (by decide) (by decide)

end SODA
